import Mathlib

/-!
# The plugin protocol bridge of `plugin/plugin.go`

A shallow embedding of `Plugin.Handle`, `Plugin.initBuf` and `Plugin.Edit`, and the
properties of them that the specification states.

Modelling conventions.

* Go strings are `String`; scanning is done on the character list.  The only characters the
  code looks for (`.`, `/`, `\`) are ASCII, so scanning UTF-8 text byte by byte, as Go does,
  and character by character give the same cut points.
* `map[string]*View` is a finite map from identifiers to view records (`Finmap`); two
  registries are equal exactly when they hold the same record under every key.  Every entry
  the code stores is a freshly allocated `&View{..., Cache: &Cache{}}`, so records are held by
  value.
* A pointer that may be nil is an `Option`; dereferencing `none` is a run-time panic.
* The connection `p.conn` is write-only for this code: the calls made on it are recorded, in
  order, as events.  Calls of the two hooks are recorded in the same trace.  Logging is left
  out; the mutex is held for the whole of `Handle` and plays no part in a sequential run.
* Library code (`encoding/json`) and the parts of the package declared in other files
  (`Cache.ApplyUpdate`) are parameters, collected in `Env`.
-/

namespace plugin

/-- The constant `EditPriorityHigh`. -/
def EditPriorityHigh : Nat := 0x10000000

/-- The Go struct `Config`.  `FontSize` is a JSON number, kept as a rational;
`PluginSearchPath` (`[]interface{}`) is kept as the JSON text of each element. -/
structure Config where
  AutoIndent : Bool
  FontFace : String
  FontSize : ℚ
  LineEnding : String
  PluginSearchPath : List String
  ScrollPastEnd : Bool
  TabSize : Int
  TranslateTabsToSpaces : Bool
  UseTabStops : Bool
  WrapWidth : Int
  deriving DecidableEq

/-- The Go struct `BufferInfo`. -/
structure BufferInfo where
  BufSize : Int
  BufferID : Int
  Config : Option Config
  NbLines : Int
  Path : String
  Rev : Nat
  Syntax : String
  Views : List String
  deriving DecidableEq

/-- The Go struct `Initialization`; `BufferInfo` is a slice of pointers, each possibly nil. -/
structure Initialization where
  BufferInfo : List (Option BufferInfo)
  PluginID : Int
  deriving DecidableEq

/-- Modelled from the spec: the type `Delta` is declared in another file of the package.
The glossary calls it an incremental change description; nothing here looks inside it, so
it is carried as its JSON text. -/
structure Delta where
  json : String
  deriving DecidableEq

/-- The Go struct `Edit`. -/
structure Edit where
  Rev : Nat
  Delta : Option Delta
  Priority : Nat
  AfterCursor : Bool
  Author : String
  NewLen : Int
  deriving DecidableEq

/-- Modelled from the spec: the type `Update` is declared in another file of the package.
The spec describes it as a revision-tagged delta addressed to one view identifier; the code
here reads its field `ViewID`. -/
structure Update where
  ViewID : String
  Rev : Nat
  Delta : Option Delta
  deriving DecidableEq

/-- Modelled from the spec: the type `Cache` is declared in another file of the package.
The spec describes it as one view's shadow text and revision counter.  The default value is
the Go zero value `Cache{}`. -/
structure Cache where
  Rev : Nat := 0
  Lines : List String := []
  deriving DecidableEq

/-- The struct `View`, with the fields that the composite literal in `initBuf` sets. -/
structure View where
  ID : String
  Path : String
  Syntax : String
  Cache : Cache
  deriving DecidableEq

/-- A Go `interface{}` value as it reaches this code: the nil interface, or a value. -/
inductive Value where
  | nil
  | int (n : Int)
  | str (s : String)
  | edit (e : Option Edit)
  | other (json : String)
  deriving DecidableEq

/-- What a hook is called with: the decoded `*Initialization` or the decoded `*Update`
(which is a nil pointer when the params were JSON `null`). -/
inductive HookArg where
  | initialization (ini : Initialization)
  | update (u : Option Update)
  deriving DecidableEq

/-- How a call of a hook ends: it returns its pair, or it panics. -/
inductive HookOutcome where
  | returned (result : Value) (flag : Bool)
  | panicked
  deriving DecidableEq

/-- The Go type `HandleFunc`.  A hook is represented by what it hands back to its caller. -/
abbrev HandleFunc := HookArg → HookOutcome

/-- The View Registry, `map[string]*View`. -/
abbrev Registry := Finmap (fun _ : String => View)

/-- The payload of an outbound notification, `map[string]interface{}`. -/
abbrev Params := Finmap (fun _ : String => Value)

/-- The Go struct `Plugin`, without the connection (see `Event`), the stop channel and the
mutex. -/
structure Plugin where
  Views : Registry
  id : Int
  handleFunc : Option HandleFunc
  handleBeforeFunc : Option HandleFunc

/-- The request identifier `jsonrpc2.ID`. -/
structure ID where
  Num : Nat
  Str : String
  IsString : Bool
  deriving DecidableEq

/-- The raw JSON text of a request's params. -/
abbrev RawMessage := String

/-- The fields of `jsonrpc2.Request` that `Handle` reads.  `Params` is a
`*json.RawMessage`: nil when the request carries no params member. -/
structure Request where
  Method : String
  Params : Option RawMessage
  ID : ID
  Notif : Bool := false

/-- One observable call made while handling: a hook invocation or a call on the
connection.  `replyWithError` is the connection's error reply. -/
inductive Event where
  | callBefore (arg : HookArg)
  | callHandle (arg : HookArg)
  | reply (id : ID) (result : Value)
  | replyWithError (id : ID) (message : String)
  | notify (method : String) (params : Params)
  deriving DecidableEq

/-- The result of `json.Unmarshal(params, &ptr)` for a pointer variable `ptr`: an error, or
success with the pointer left nil (JSON `null`) or pointing to the decoded value. -/
inductive Decoded (α : Type) where
  | error
  | ok (ptr : Option α)
  deriving DecidableEq

/-- What a call `cache.ApplyUpdate(update)` leaves behind: the cache contents, and whether
the call panicked. -/
structure Applied where
  cache : Cache
  panicked : Bool

/-- The parts taken as given: the platform's path separator rule, the JSON decoder at the
two pointer types, and `Cache.ApplyUpdate` (declared in another file of the package). -/
structure Env where
  windows : Bool
  unmarshalInitialization : RawMessage → Decoded Initialization
  unmarshalUpdate : RawMessage → Decoded Update
  ApplyUpdate : Cache → Update → Applied

/-- The outcome of running a piece of code: the session afterwards, the events in order,
and whether it ended by panicking. -/
structure Run where
  plugin : Plugin
  events : List Event
  panicked : Bool

/-- The function `NewPlugin`. -/
def NewPlugin : Plugin :=
  { Views := ∅, id := 0, handleFunc := none, handleBeforeFunc := none }

/-- The method `SetHandleFunc`. -/
def Plugin.SetHandleFunc (p : Plugin) (handleFunc : Option HandleFunc) : Plugin :=
  { p with handleFunc := handleFunc }

/-- The method `SetHandleBeforeFunc`. -/
def Plugin.SetHandleBeforeFunc (p : Plugin) (handleBeforeFunc : Option HandleFunc) : Plugin :=
  { p with handleBeforeFunc := handleBeforeFunc }

/-- The function `os.IsPathSeparator`: `/`, and on Windows also `\`. -/
def IsPathSeparator (windows : Bool) (c : Char) : Bool :=
  c == '/' || (windows && c == '\\')

/-- The loop of `filepath.Ext`,
`for i := len(path) - 1; i >= 0 && !os.IsPathSeparator(path[i]); i--`, with the argument
standing for `i + 1`. -/
def Ext.loop (windows : Bool) (path : List Char) : Nat → List Char
  | 0 => []
  | i + 1 =>
    match path.get? i with
    | none => []
    | some c =>
      if IsPathSeparator windows c then []
      else if c = '.' then path.drop i
      else Ext.loop windows path i

/-- The function `filepath.Ext`. -/
def Ext (windows : Bool) (path : String) : String :=
  ⟨Ext.loop windows path.data path.data.length⟩

/-- The function `strings.HasPrefix`. -/
def HasPrefix (s pre : String) : Bool :=
  pre.data.isPrefixOf s.data

/-- The method `initBuf`. -/
def Plugin.initBuf (windows : Bool) (p : Plugin) (buf : BufferInfo) : Plugin :=
  let ext := Ext windows buf.Path
  let ext := if HasPrefix ext "." then (⟨ext.data.drop 1⟩ : String) else ext
  buf.Views.foldl
    (fun p viewID =>
      { p with
        Views := p.Views.insert viewID
          { ID := viewID, Path := buf.Path, Syntax := ext, Cache := {} } })
    p

/-- The loop `for _, buf := range initialization.BufferInfo { p.initBuf(buf) }`.  A nil
element panics inside `initBuf` at `buf.Path`, before any view of it is stored; what the
earlier elements stored stays. -/
def initBufs (windows : Bool) (p : Plugin) : List (Option BufferInfo) → Plugin × Bool
  | [] => (p, false)
  | none :: _ => (p, true)
  | some buf :: rest => initBufs windows (p.initBuf windows buf) rest

/-- The tail shared by the `initialize` and `new_buffer` cases: the loop over the buffer
descriptors, then `if p.handleFunc != nil { p.handleFunc(initialization) }`. -/
def initTail (env : Env) (p : Plugin) (ini : Initialization) : Run :=
  match initBufs env.windows p ini.BufferInfo with
  | (p, true) => { plugin := p, events := [], panicked := true }
  | (p, false) =>
    match p.handleFunc with
    | none => { plugin := p, events := [], panicked := false }
    | some handleFunc =>
      match handleFunc (.initialization ini) with
      | .returned _ _ =>
        { plugin := p, events := [.callHandle (.initialization ini)], panicked := false }
      | .panicked =>
        { plugin := p, events := [.callHandle (.initialization ini)], panicked := true }

/-- The case `"initialize"` of `Handle`. -/
def handleInitialize (env : Env) (p : Plugin) (params : RawMessage) : Run :=
  match env.unmarshalInitialization params with
  | .error => { plugin := p, events := [], panicked := false }
  | .ok none => { plugin := p, events := [], panicked := true }
  | .ok (some ini) => initTail env { p with id := ini.PluginID } ini

/-- The case `"new_buffer"` of `Handle`. -/
def handleNewBuffer (env : Env) (p : Plugin) (params : RawMessage) : Run :=
  match env.unmarshalInitialization params with
  | .error => { plugin := p, events := [], panicked := false }
  | .ok none => { plugin := p, events := [], panicked := true }
  | .ok (some ini) => initTail env p ini

/-- The state of the case `"update"` when its body ends: the session, the events so far,
the variable `result`, and whether the body ended by panicking. -/
structure UpdateBody where
  plugin : Plugin
  events : List Event
  result : Value
  panicked : Bool

/-- The case `"update"` from `p.Views[update.ViewID].Cache.ApplyUpdate(update)` on, entered
with the current `result` and the events so far.  A nil `update`, a missing registry entry
(the map yields a nil `*View`), a panic inside `ApplyUpdate` and a panic inside the hook
each end the body there, with `result` as it stands; the assignment
`result, _ = p.handleFunc(update)` takes place only when the hook returns. -/
def updateApply (env : Env) (p : Plugin) (update : Option Update) (result : Value)
    (events : List Event) : UpdateBody :=
  match update with
  | none => { plugin := p, events := events, result := result, panicked := true }
  | some u =>
    match p.Views.lookup u.ViewID with
    | none => { plugin := p, events := events, result := result, panicked := true }
    | some view =>
      let applied := env.ApplyUpdate view.Cache u
      let p := { p with Views := p.Views.insert u.ViewID { view with Cache := applied.cache } }
      if applied.panicked then
        { plugin := p, events := events, result := result, panicked := true }
      else
        match p.handleFunc with
        | none => { plugin := p, events := events, result := result, panicked := false }
        | some handleFunc =>
          match handleFunc (.update update) with
          | .returned r _ =>
            { plugin := p, events := events ++ [.callHandle (.update update)], result := r,
              panicked := false }
          | .panicked =>
            { plugin := p, events := events ++ [.callHandle (.update update)],
              result := result, panicked := true }

/-- The body of the case `"update"` after its `defer`: decode, before-hook, then
`updateApply`. -/
def updateBody (env : Env) (p : Plugin) (params : RawMessage) : UpdateBody :=
  match env.unmarshalUpdate params with
  | .error => { plugin := p, events := [], result := .nil, panicked := false }
  | .ok update =>
    match p.handleBeforeFunc with
    | none => updateApply env p update .nil []
    | some handleBeforeFunc =>
      match handleBeforeFunc (.update update) with
      | .panicked =>
        { plugin := p, events := [.callBefore (.update update)], result := .nil,
          panicked := true }
      | .returned result overide =>
        if overide then
          { plugin := p, events := [.callBefore (.update update)], result := result,
            panicked := false }
        else updateApply env p update result [.callBefore (.update update)]

/-- The case `"update"` of `Handle`: the body, then the deferred function, which runs when
the body returns and when it panics:
`if result == nil { result = 0 }; p.conn.Reply(context.Background(), req.ID, result)`. -/
def handleUpdate (env : Env) (p : Plugin) (req : Request) (params : RawMessage) : Run :=
  let body := updateBody env p params
  let result := if body.result = .nil then Value.int 0 else body.result
  { plugin := body.plugin, events := body.events ++ [.reply req.ID result],
    panicked := body.panicked }

/-- The method `RawMessage.MarshalJSON` called through the pointer `req.Params`: a nil
pointer cannot be dereferenced (`none`); otherwise the bytes come back with a nil error. -/
def MarshalJSON (params : Option RawMessage) : Option (RawMessage × Bool) :=
  match params with
  | none => none
  | some m => some (m, false)

/-- The method `Handle`.  `panicked` in the outcome says that the deferred `recover` caught a
panic; `Handle` itself always returns. -/
def Plugin.Handle (env : Env) (p : Plugin) (req : Request) : Run :=
  match MarshalJSON req.Params with
  | none => { plugin := p, events := [], panicked := true }
  | some (params, err) =>
    if err then { plugin := p, events := [], panicked := false }
    else if req.Method = "initialize" then handleInitialize env p params
    else if req.Method = "new_buffer" then handleNewBuffer env p params
    else if req.Method = "update" then handleUpdate env p req params
    else { plugin := p, events := [], panicked := false }

/-- The method `Edit`.  It has no `recover`: a nil `view` panics at `view.ID`, before the
call of `p.conn.Notify`. -/
def Plugin.Edit (p : Plugin) (view : Option View) (edit : Option Edit) : Run :=
  let params : Params := ∅
  let params := params.insert "edit" (Value.edit edit)
  match view with
  | none => { plugin := p, events := [], panicked := true }
  | some view =>
    let params := params.insert "view_id" (Value.str view.ID)
    let params := params.insert "plugin_id" (Value.int p.id)
    { plugin := p, events := [.notify "edit" params], panicked := false }

/-- Handling a sequence of inbound messages, one after the other. -/
def handleAll (env : Env) (p : Plugin) : List Request → Plugin
  | [] => p
  | req :: rest => handleAll env (p.Handle env req).plugin rest

/-! ### Definitions used to state the properties -/

/-- In the spec's words: the final element of a path, the characters after its last
separator. -/
def finalElement (windows : Bool) (path : List Char) : List Char :=
  (path.reverse.takeWhile (fun c => !IsPathSeparator windows c)).reverse

/-- In the spec's words: the syntax tag of a path, the characters after the last `.` of the
final path element, and the empty string when the final element has no `.`. -/
def specTag (windows : Bool) (path : String) : String :=
  let last := finalElement windows path.data
  if '.' ∈ last then ⟨(last.reverse.takeWhile (fun c => c ≠ '.')).reverse⟩ else ""

/-- The `reply` calls among the events, in order. -/
def replies : List Event → List (ID × Value)
  | [] => []
  | .reply id result :: rest => (id, result) :: replies rest
  | _ :: rest => replies rest

/-- The `notify` calls among the events, in order. -/
def notifications : List Event → List (String × Params)
  | [] => []
  | .notify method params :: rest => (method, params) :: notifications rest
  | _ :: rest => notifications rest

/-- Whether an event is a call of the general hook. -/
def Event.isCallHandle : Event → Bool
  | .callHandle _ => true
  | _ => false

/-- Whether an event is an error reply. -/
def Event.isReplyWithError : Event → Bool
  | .replyWithError _ _ => true
  | _ => false

/-- The value sent by the deferred reply for a given `result`. -/
def orZero (result : Value) : Value :=
  if result = .nil then .int 0 else result

/-- The variable `result` after the before-hook step of the `update` case: nil when no
before-hook is registered or it panicked, else what it returned. -/
def beforeResult (p : Plugin) (arg : HookArg) : Value :=
  match p.handleBeforeFunc with
  | none => .nil
  | some handleBeforeFunc =>
    match handleBeforeFunc arg with
    | .returned result _ => result
    | .panicked => .nil

/-- The view record that `initBuf` stores under `viewID` for a descriptor. -/
def freshView (windows : Bool) (buf : BufferInfo) (viewID : String) : View :=
  { ID := viewID, Path := buf.Path, Syntax := ⟨(Ext windows buf.Path).data.drop 1⟩,
    Cache := { Rev := 0, Lines := [] } }

/-- The scan of `filepath.Ext` over the first `n` characters, in closed form. -/
def extOf (windows : Bool) (pre suf : List Char) : List Char :=
  let t := pre.reverse.takeWhile (fun c => !IsPathSeparator windows c)
  if '.' ∈ t then '.' :: ((t.takeWhile (fun c => c ≠ '.')).reverse ++ suf) else []

/-- A buffer descriptor with the given path and views, for concrete runs. -/
def sampleBuf (path : String) (views : List String) : BufferInfo :=
  { BufSize := 0, BufferID := 1, Config := none, NbLines := 1, Path := path, Rev := 0,
    Syntax := "", Views := views }

/-- The params text of an `initialize` message that assigns plugin identifier 1. -/
def initJson1 : RawMessage := "\x7b\"buffer_info\":[],\"plugin_id\":1\x7d"

/-- The params text of an `initialize` message that assigns plugin identifier 2. -/
def initJson2 : RawMessage := "\x7b\"buffer_info\":[],\"plugin_id\":2\x7d"

/-- The params text of an `update` message addressed to the view `v2`. -/
def updateJsonV2 : RawMessage := "\x7b\"view_id\":\"v2\",\"rev\":1\x7d"

/-- An environment for concrete runs: Unix path rules; a decoder given by a table on the
three texts above and JSON `null`, as `encoding/json` decodes them, and an error elsewhere;
an `ApplyUpdate` that records the update's revision and does not panic. -/
def sampleEnv : Env :=
  { windows := false
    unmarshalInitialization := fun raw =>
      if raw = initJson1 then .ok (some { BufferInfo := [], PluginID := 1 })
      else if raw = initJson2 then .ok (some { BufferInfo := [], PluginID := 2 })
      else if raw = "null" then .ok none
      else .error
    unmarshalUpdate := fun raw =>
      if raw = updateJsonV2 then .ok (some { ViewID := "v2", Rev := 1, Delta := none })
      else if raw = "null" then .ok none
      else .error
    ApplyUpdate := fun cache u => { cache := { cache with Rev := u.Rev }, panicked := false } }

/-- A request with the given method and params and the numeric identifier 7. -/
def sampleReq (method : String) (params : Option RawMessage) : Request :=
  { Method := method, Params := params, ID := { Num := 7, Str := "", IsString := false } }

/-- A before-hook for concrete runs: it returns the string `before` and does not override. -/
def sampleBefore : HandleFunc := fun _ => .returned (.str "before") false

/-- A before-hook for concrete runs: it returns the string `stop` and overrides. -/
def sampleOverride : HandleFunc := fun _ => .returned (.str "stop") true

/-- A general hook for concrete runs: it returns the string `general`. -/
def sampleGeneral : HandleFunc := fun _ => .returned (.str "general") false

/-- A session for concrete runs: the view `v2` of `a/b.rs` is registered, with the given
hooks. -/
def sampleSession (before general : Option HandleFunc) : Plugin :=
  ((NewPlugin.initBuf false (sampleBuf "a/b.rs" ["v2"])).SetHandleFunc general).SetHandleBeforeFunc
    before

/-! ### `filepath.Ext` and the syntax tag -/


theorem dot_not_separator (windows : Bool) : IsPathSeparator windows '.' = false := by
  cases windows <;> decide

theorem Ext_loop_eq (windows : Bool) (path : List Char) :
    ∀ n, n ≤ path.length →
      Ext.loop windows path n = extOf windows (path.take n) (path.drop n) := by
  intro n
  induction n with
  | zero => intro _; simp [Ext.loop, extOf]
  | succ n ih =>
    intro hn
    have hlt : n < path.length := hn
    have hget : path.get? n = some path[n] := by
      rw [List.get?_eq_getElem?]; exact List.getElem?_eq_getElem hlt
    have htake : path.take (n + 1) = path.take n ++ [path[n]] := by
      rw [List.take_succ, List.getElem?_eq_getElem hlt]; rfl
    have hdrop : path.drop n = path[n] :: path.drop (n + 1) :=
      List.drop_eq_getElem_cons hlt
    generalize path[n] = c at hget htake hdrop
    rw [Ext.loop, hget]
    simp only [extOf, htake, List.reverse_append, List.reverse_cons, List.reverse_nil,
      List.nil_append, List.singleton_append, List.takeWhile_cons]
    by_cases hsep : IsPathSeparator windows c = true
    · simp [hsep]
    · have hsep' : IsPathSeparator windows c = false := by simpa using hsep
      by_cases hc : c = '.'
      · subst hc
        simp [hsep', hdrop]
      · have hc' : ¬ '.' = c := fun h => hc h.symm
        rw [ih (Nat.le_of_lt hlt)]
        simp [hsep', hc, hc', extOf, hdrop]

theorem Ext_data (windows : Bool) (path : String) :
    (Ext windows path).data = extOf windows path.data [] := by
  have h := Ext_loop_eq windows path.data path.data.length (Nat.le_refl _)
  rw [List.take_length, List.drop_length] at h
  exact h

/-- The extension is empty or starts with the dot. -/
theorem Ext_data_cases (windows : Bool) (path : String) :
    (Ext windows path).data = [] ∨ ∃ rest, (Ext windows path).data = '.' :: rest := by
  rw [Ext_data]
  simp only [extOf]
  split
  · exact Or.inr ⟨_, rfl⟩
  · exact Or.inl rfl

/-- The two lines of `initBuf` that compute the tag drop the first character of the
extension, if there is one. -/
theorem tag_eq_drop (windows : Bool) (path : String) :
    (if HasPrefix (Ext windows path) "." then (⟨(Ext windows path).data.drop 1⟩ : String)
      else Ext windows path) = ⟨(Ext windows path).data.drop 1⟩ := by
  rcases Ext_data_cases windows path with h | ⟨rest, h⟩
  · have : Ext windows path = ⟨[]⟩ := by
      cases hE : Ext windows path; rw [hE] at h; simp at h; rw [h]
    simp [HasPrefix, this]
  · simp [HasPrefix, h]

/-- The tag computed by `initBuf` is the tag in the spec's words. -/
theorem tag_eq_specTag (windows : Bool) (path : String) :
    (⟨(Ext windows path).data.drop 1⟩ : String) = specTag windows path := by
  unfold specTag finalElement
  rw [Ext_data]
  simp only [extOf, List.mem_reverse, List.reverse_reverse, List.append_nil]
  split
  · simp
  · rfl

/-- The extension is a suffix of the path. -/
theorem Ext_suffix (windows : Bool) (path : String) :
    (Ext windows path).data <:+ path.data := by
  have key : ∀ n, Ext.loop windows path.data n <:+ path.data := by
    intro n
    induction n with
    | zero => simp [Ext.loop]
    | succ n ih =>
      rw [Ext.loop]
      split
      · simp
      · split
        · simp
        · split
          · exact List.drop_suffix _ _
          · exact ih
  exact key _

/-- The method `initBuf` stores `freshView` under each listed identifier. -/
theorem initBuf_eq_foldl (windows : Bool) (p : Plugin) (buf : BufferInfo) :
    p.initBuf windows buf =
      buf.Views.foldl
        (fun p viewID => { p with Views := p.Views.insert viewID (freshView windows buf viewID) })
        p := by
  simp only [Plugin.initBuf, freshView, tag_eq_drop]

theorem foldl_insert_spec (mk : String → View) (views : List String) :
    ∀ p : Plugin,
      let q := views.foldl (fun p viewID => { p with Views := p.Views.insert viewID (mk viewID) }) p
      q.id = p.id ∧ q.handleFunc = p.handleFunc ∧ q.handleBeforeFunc = p.handleBeforeFunc ∧
        ∀ k, q.Views.lookup k = if k ∈ views then some (mk k) else p.Views.lookup k := by
  induction views with
  | nil => intro p; simp
  | cons v vs ih =>
    intro p
    obtain ⟨h1, h2, h3, h4⟩ := ih { p with Views := p.Views.insert v (mk v) }
    refine ⟨h1, h2, h3, ?_⟩
    intro k
    simp only [List.foldl_cons] at h4 ⊢
    rw [h4 k]
    by_cases hk : k ∈ vs
    · simp [hk]
    · by_cases hkv : k = v
      · subst hkv; simp [hk, Finmap.lookup_insert]
      · simp [hk, hkv, Finmap.lookup_insert_of_ne _ hkv]

/-- What `initBuf` leaves in the registry under each key. -/
theorem initBuf_lookup (windows : Bool) (p : Plugin) (buf : BufferInfo) (k : String) :
    (p.initBuf windows buf).Views.lookup k =
      if k ∈ buf.Views then some (freshView windows buf k) else p.Views.lookup k := by
  rw [initBuf_eq_foldl]
  exact (foldl_insert_spec (freshView windows buf) buf.Views p).2.2.2 k

/-- The method `initBuf` touches nothing but the registry. -/
theorem initBuf_frame (windows : Bool) (p : Plugin) (buf : BufferInfo) :
    (p.initBuf windows buf).id = p.id ∧ (p.initBuf windows buf).handleFunc = p.handleFunc ∧
      (p.initBuf windows buf).handleBeforeFunc = p.handleBeforeFunc := by
  rw [initBuf_eq_foldl]
  obtain ⟨h1, h2, h3, _⟩ := foldl_insert_spec (freshView windows buf) buf.Views p
  exact ⟨h1, h2, h3⟩

/-- The keys of the registry after `initBuf`. -/
theorem initBuf_keys (windows : Bool) (p : Plugin) (buf : BufferInfo) :
    (p.initBuf windows buf).Views.keys = p.Views.keys ∪ buf.Views.toFinset := by
  ext k
  rw [Finmap.mem_keys, ← Finmap.lookup_isSome, initBuf_lookup]
  by_cases hk : k ∈ buf.Views
  · simp [hk]
  · simp [hk, Finmap.lookup_isSome, Finmap.mem_keys]

theorem Plugin.eq_of_fields {p q : Plugin} (h1 : p.Views = q.Views) (h2 : p.id = q.id)
    (h3 : p.handleFunc = q.handleFunc) (h4 : p.handleBeforeFunc = q.handleBeforeFunc) :
    p = q := by
  cases p; cases q; simp_all

/-- The number of entries of a registry is the number of its keys. -/
theorem card_entries_eq_card_keys (r : Registry) :
    Multiset.card r.entries = r.keys.card := by
  simp [Finmap.keys, Multiset.keys, Finset.card]

/-- The final path element in the spec's words, characterised: the path is a directory part
followed by the final element, the final element holds no separator, and the directory part
is empty or ends with a separator. -/
theorem finalElement_spec (windows : Bool) (path : List Char) :
    ∃ dir, path = dir ++ finalElement windows path ∧
      (∀ c ∈ finalElement windows path, IsPathSeparator windows c = false) ∧
      (dir = [] ∨ ∃ d c, dir = d ++ [c] ∧ IsPathSeparator windows c = true) := by
  refine ⟨(path.reverse.dropWhile (fun c => !IsPathSeparator windows c)).reverse, ?_, ?_, ?_⟩
  · unfold finalElement
    rw [← List.reverse_append, List.takeWhile_append_dropWhile, List.reverse_reverse]
  · intro c hc
    unfold finalElement at hc
    have := List.mem_takeWhile_imp (List.mem_reverse.mp hc)
    simpa using this
  · cases h : path.reverse.dropWhile (fun c => !IsPathSeparator windows c) with
    | nil => exact Or.inl rfl
    | cons c d =>
      refine Or.inr ⟨d.reverse, c, by simp, ?_⟩
      have := List.head_dropWhile_not (fun c => !IsPathSeparator windows c) path.reverse
        (by rw [h]; simp)
      simp only [h, List.head_cons] at this
      simpa using this

/-- The tag in the spec's words, characterised: empty when the final element has no dot;
otherwise the final element is `pre ++ '.' :: tag` with no dot in the tag. -/
theorem specTag_spec (windows : Bool) (path : String) :
    ('.' ∉ finalElement windows path.data → specTag windows path = "") ∧
      ('.' ∈ finalElement windows path.data →
        '.' ∉ (specTag windows path).data ∧
          ∃ pre, finalElement windows path.data = pre ++ '.' :: (specTag windows path).data) := by
  constructor
  · intro h; simp [specTag, h]
  · intro h
    simp only [specTag, h, if_true]
    generalize finalElement windows path.data = last at h
    constructor
    · intro hmem
      have := List.mem_takeWhile_imp (List.mem_reverse.mp hmem)
      simp at this
    · have hsplit := List.takeWhile_append_dropWhile (fun c => decide (c ≠ '.')) last.reverse
      cases hd : last.reverse.dropWhile (fun c => decide (c ≠ '.')) with
      | nil =>
        rw [hd, List.append_nil] at hsplit
        have h2 : '.' ∈ last.reverse.takeWhile (fun c => decide (c ≠ '.')) := by
          rw [hsplit]; exact List.mem_reverse.mpr h
        have := List.mem_takeWhile_imp h2
        simp at this
      | cons c d =>
        have hc := List.head_dropWhile_not (fun c => decide (c ≠ '.')) last.reverse
          (by rw [hd]; simp)
        simp only [hd, List.head_cons] at hc
        have hc' : c = '.' := by simpa using hc
        subst hc'
        refine ⟨d.reverse, ?_⟩
        rw [hd] at hsplit
        have := congrArg List.reverse hsplit
        simpa using this.symm

/-! ### Buffer initialization -/

/-- C6: every view record stored by `initBuf` carries as syntax tag the characters after the
last `.` of the final path element (empty when that element has no `.`), taken from the
path as they stand: the tag is a suffix of the path, so letter case is preserved. -/
theorem initBuf_tag_is_extension (windows : Bool) (p : Plugin) (buf : BufferInfo)
    (viewID : String) (h : viewID ∈ buf.Views) :
    ∃ view, (p.initBuf windows buf).Views.lookup viewID = some view ∧
      view.Syntax = specTag windows buf.Path ∧ view.Syntax.data <:+ buf.Path.data := by
  refine ⟨freshView windows buf viewID, ?_, ?_, ?_⟩
  · rw [initBuf_lookup, if_pos h]
  · exact tag_eq_specTag windows buf.Path
  · exact (List.drop_suffix 1 _).trans (Ext_suffix windows buf.Path)

theorem initBuf_tag_is_extension_witness :
    "v1" ∈ (sampleBuf "src/Main.RS" ["v1"]).Views ∧
      ∃ view, (NewPlugin.initBuf false (sampleBuf "src/Main.RS" ["v1"])).Views.lookup "v1"
          = some view ∧
        view.Syntax = specTag false (sampleBuf "src/Main.RS" ["v1"]).Path ∧
        view.Syntax.data <:+ (sampleBuf "src/Main.RS" ["v1"]).Path.data :=
  ⟨by decide, initBuf_tag_is_extension false NewPlugin (sampleBuf "src/Main.RS" ["v1"]) "v1"
    (by decide)⟩

/-- The examples of the tag: `a/b.rs` gives `rs`, `README` gives the empty tag, `Main.RS`
gives `RS`. -/
theorem initBuf_tag_examples :
    (freshView false (sampleBuf "a/b.rs" ["v1"]) "v1").Syntax = "rs" ∧
      (freshView false (sampleBuf "README" ["v1"]) "v1").Syntax = "" ∧
      (freshView false (sampleBuf "Main.RS" ["v1"]) "v1").Syntax = "RS" ∧
      specTag false "a/b.rs" = "rs" ∧ specTag false "README" = "" ∧
      specTag false "Main.RS" = "RS" := by
  decide

/-- C7, as stated, fails: for the path `Main.RS` the stored tag is `RS`, not `rs`; it holds
an upper-case letter. -/
theorem initBuf_tag_not_lowercased :
    ∃ view, (NewPlugin.initBuf false (sampleBuf "Main.RS" ["v1"])).Views.lookup "v1"
        = some view ∧
      view.Syntax = "RS" ∧ view.Syntax ≠ "rs" ∧ ∃ c ∈ view.Syntax.data, c.isUpper = true := by
  refine ⟨freshView false (sampleBuf "Main.RS" ["v1"]) "v1", ?_, by decide, by decide,
    'R', by decide, by decide⟩
  rw [initBuf_lookup, if_pos (by decide)]

/-- C7, amended: every view record stored by `initBuf` carries as syntax tag the extension
`filepath.Ext` of the path without its leading dot and with letter case unchanged: the tag
holds an upper-case letter exactly when the extension does, and is empty when the path has
no extension. -/
theorem initBuf_tag_case_preserved (windows : Bool) (p : Plugin) (buf : BufferInfo)
    (viewID : String) (h : viewID ∈ buf.Views) :
    ∃ view, (p.initBuf windows buf).Views.lookup viewID = some view ∧
      view.Syntax.data = (Ext windows buf.Path).data.drop 1 ∧
      ((∃ c ∈ view.Syntax.data, c.isUpper = true) ↔
        ∃ c ∈ (Ext windows buf.Path).data, c.isUpper = true) ∧
      (Ext windows buf.Path = "" → view.Syntax = "") := by
  refine ⟨freshView windows buf viewID, ?_, rfl, ?_, ?_⟩
  · rw [initBuf_lookup, if_pos h]
  · show (∃ c ∈ (Ext windows buf.Path).data.drop 1, c.isUpper = true) ↔ _
    rcases Ext_data_cases windows buf.Path with h0 | ⟨rest, h0⟩
    · rw [h0]; simp
    · rw [h0]
      have hdot : Char.isUpper '.' = false := by decide
      simp [hdot]
  · intro h0
    show (⟨(Ext windows buf.Path).data.drop 1⟩ : String) = ""
    rw [h0]; rfl

theorem initBuf_tag_case_preserved_witness :
    "v1" ∈ (sampleBuf "Main.RS" ["v1"]).Views ∧
      ∃ view, (NewPlugin.initBuf false (sampleBuf "Main.RS" ["v1"])).Views.lookup "v1"
          = some view ∧
        view.Syntax.data = (Ext false (sampleBuf "Main.RS" ["v1"]).Path).data.drop 1 ∧
        ((∃ c ∈ view.Syntax.data, c.isUpper = true) ↔
          ∃ c ∈ (Ext false (sampleBuf "Main.RS" ["v1"]).Path).data, c.isUpper = true) ∧
        (Ext false (sampleBuf "Main.RS" ["v1"]).Path = "" → view.Syntax = "") :=
  ⟨by decide, initBuf_tag_case_preserved false NewPlugin (sampleBuf "Main.RS" ["v1"]) "v1"
    (by decide)⟩

/-- C4, as stated, fails: a descriptor that lists the identifier `v1` twice lists two view
identifiers, and `initBuf` on the empty registry leaves one entry. -/
theorem initBuf_repeated_view_one_entry :
    (sampleBuf "a/b.rs" ["v1", "v1"]).Views.length = 2 ∧
      Multiset.card (NewPlugin.initBuf false (sampleBuf "a/b.rs" ["v1", "v1"])).Views.entries
        = 1 := by
  refine ⟨rfl, ?_⟩
  rw [card_entries_eq_card_keys, initBuf_keys]
  decide

/-- C4, amended: for a descriptor whose `k` listed view identifiers are pairwise distinct,
`initBuf` on an empty registry leaves exactly `k` entries; whether or not identifiers
repeat, the keys are exactly the listed identifiers (so the entries number the distinct
ones), and the entry under a listed identifier has that identifier as `ID`, the
descriptor's path as `Path` and a zero-valued cache. -/
theorem initBuf_empty_registry (windows : Bool) (p : Plugin) (buf : BufferInfo)
    (hp : p.Views = ∅) :
    (buf.Views.Nodup →
        Multiset.card (p.initBuf windows buf).Views.entries = buf.Views.length) ∧
      Multiset.card (p.initBuf windows buf).Views.entries = buf.Views.dedup.length ∧
      (∀ k, k ∈ (p.initBuf windows buf).Views ↔ k ∈ buf.Views) ∧
      ∀ k, k ∈ buf.Views →
        ∃ view, (p.initBuf windows buf).Views.lookup k = some view ∧
          view.ID = k ∧ view.Path = buf.Path ∧ view.Cache = { Rev := 0, Lines := [] } := by
  have hcard : Multiset.card (p.initBuf windows buf).Views.entries = buf.Views.dedup.length := by
    rw [card_entries_eq_card_keys, initBuf_keys, hp, Finmap.keys_empty, Finset.empty_union,
      List.card_toFinset]
  refine ⟨?_, hcard, ?_, ?_⟩
  · intro hnd
    rw [hcard, hnd.dedup]
  · intro k
    rw [← Finmap.mem_keys, initBuf_keys, hp, Finmap.keys_empty, Finset.empty_union,
      List.mem_toFinset]
  · intro k hk
    exact ⟨freshView windows buf k, by rw [initBuf_lookup, if_pos hk], rfl, rfl, rfl⟩

theorem initBuf_empty_registry_witness :
    NewPlugin.Views = ∅ ∧ (sampleBuf "a/b.rs" ["v1", "v2"]).Views.Nodup ∧
      Multiset.card (NewPlugin.initBuf false (sampleBuf "a/b.rs" ["v1", "v2"])).Views.entries
        = 2 ∧
      ∃ view, (NewPlugin.initBuf false (sampleBuf "a/b.rs" ["v1", "v2"])).Views.lookup "v2"
          = some view ∧
        view.ID = "v2" ∧ view.Path = "a/b.rs" ∧ view.Cache = { Rev := 0, Lines := [] } :=
  ⟨rfl, by decide,
    (initBuf_empty_registry false NewPlugin (sampleBuf "a/b.rs" ["v1", "v2"]) rfl).1
      (by decide),
    (initBuf_empty_registry false NewPlugin (sampleBuf "a/b.rs" ["v1", "v2"]) rfl).2.2.2 "v2"
      (by decide)⟩

/-- C8: after `initBuf` the record under each listed identifier is `freshView`, a function
of the descriptor and the identifier alone (its path, its tag, a cache at revision zero),
whatever the registry held before; the other keys keep their records; and running `initBuf`
a second time with the same descriptor changes nothing. -/
theorem initBuf_replaces_and_idempotent (windows : Bool) (p : Plugin) (buf : BufferInfo) :
    (∀ k, (p.initBuf windows buf).Views.lookup k =
        if k ∈ buf.Views then some (freshView windows buf k) else p.Views.lookup k) ∧
      (∀ k, (freshView windows buf k).ID = k ∧ (freshView windows buf k).Path = buf.Path ∧
        (freshView windows buf k).Syntax = specTag windows buf.Path ∧
        (freshView windows buf k).Cache.Rev = 0 ∧ (freshView windows buf k).Cache = {}) ∧
      (p.initBuf windows buf).initBuf windows buf = p.initBuf windows buf := by
  refine ⟨initBuf_lookup windows p buf, ?_, ?_⟩
  · intro k
    exact ⟨rfl, rfl, tag_eq_specTag windows buf.Path, rfl, rfl⟩
  · obtain ⟨h1, h2, h3⟩ := initBuf_frame windows (p.initBuf windows buf) buf
    refine Plugin.eq_of_fields (Finmap.ext_lookup ?_) h1 h2 h3
    intro k
    rw [initBuf_lookup windows (p.initBuf windows buf), initBuf_lookup]
    by_cases hk : k ∈ buf.Views <;> simp [hk]

/-! ### `Handle`: dispatch -/

theorem Handle_absent_params (env : Env) (p : Plugin) (req : Request) (h : req.Params = none) :
    p.Handle env req = { plugin := p, events := [], panicked := true } := by
  simp [Plugin.Handle, MarshalJSON, h]

theorem Handle_update_case (env : Env) (p : Plugin) (req : Request) (raw : RawMessage)
    (hm : req.Method = "update") (hp : req.Params = some raw) :
    p.Handle env req = handleUpdate env p req raw := by
  have h1 : ¬ ("update" = "initialize") := by decide
  have h2 : ¬ ("update" = "new_buffer") := by decide
  simp [Plugin.Handle, MarshalJSON, hp, hm, h1, h2]

theorem Handle_initialize_case (env : Env) (p : Plugin) (req : Request) (raw : RawMessage)
    (hm : req.Method = "initialize") (hp : req.Params = some raw) :
    p.Handle env req = handleInitialize env p raw := by
  simp [Plugin.Handle, MarshalJSON, hp, hm]

theorem Handle_new_buffer_case (env : Env) (p : Plugin) (req : Request) (raw : RawMessage)
    (hm : req.Method = "new_buffer") (hp : req.Params = some raw) :
    p.Handle env req = handleNewBuffer env p raw := by
  have h1 : ¬ ("new_buffer" = "initialize") := by decide
  simp [Plugin.Handle, MarshalJSON, hp, hm, h1]

theorem Handle_other (env : Env) (p : Plugin) (req : Request)
    (h1 : req.Method ≠ "initialize") (h2 : req.Method ≠ "new_buffer")
    (h3 : req.Method ≠ "update") :
    (p.Handle env req).plugin = p ∧ (p.Handle env req).events = [] := by
  cases hp : req.Params <;> simp [Plugin.Handle, MarshalJSON, hp, h1, h2, h3]

/-! ### The plugin identifier -/

theorem initBufs_id (windows : Bool) (bufs : List (Option BufferInfo)) :
    ∀ p : Plugin, (initBufs windows p bufs).1.id = p.id := by
  induction bufs with
  | nil => intro p; rfl
  | cons b rest ih =>
    intro p
    cases b with
    | none => rfl
    | some buf =>
      show (initBufs windows (p.initBuf windows buf) rest).1.id = p.id
      rw [ih, (initBuf_frame windows p buf).1]

theorem initTail_id (env : Env) (p : Plugin) (ini : Initialization) :
    (initTail env p ini).plugin.id = p.id := by
  have h := initBufs_id env.windows ini.BufferInfo p
  unfold initTail
  split
  · rename_i q hq; rw [hq] at h; exact h
  · rename_i q hq
    rw [hq] at h
    split
    · exact h
    · split <;> exact h

theorem updateApply_id (env : Env) (p : Plugin) (update : Option Update) (result : Value)
    (events : List Event) : (updateApply env p update result events).plugin.id = p.id := by
  unfold updateApply
  split
  · rfl
  · split
    · rfl
    · dsimp only
      split
      · rfl
      · split
        · rfl
        · split <;> rfl

theorem updateBody_id (env : Env) (p : Plugin) (raw : RawMessage) :
    (updateBody env p raw).plugin.id = p.id := by
  unfold updateBody
  split
  · rfl
  · split
    · exact updateApply_id ..
    · split
      · rfl
      · split
        · rfl
        · exact updateApply_id ..

theorem handleInitialize_id (env : Env) (p : Plugin) (raw : RawMessage) :
    (handleInitialize env p raw).plugin.id =
      match env.unmarshalInitialization raw with
      | .ok (some ini) => ini.PluginID
      | _ => p.id := by
  unfold handleInitialize
  cases h : env.unmarshalInitialization raw with
  | error => rfl
  | ok ptr =>
    cases ptr with
    | none => rfl
    | some ini => exact initTail_id env { p with id := ini.PluginID } ini

theorem handleNewBuffer_id (env : Env) (p : Plugin) (raw : RawMessage) :
    (handleNewBuffer env p raw).plugin.id = p.id := by
  unfold handleNewBuffer
  split
  · rfl
  · rfl
  · exact initTail_id env p _

theorem Handle_id_of_other_method (env : Env) (p : Plugin) (req : Request)
    (h : req.Method ≠ "initialize") : (p.Handle env req).plugin.id = p.id := by
  cases hp : req.Params with
  | none => rw [Handle_absent_params env p req hp]
  | some raw =>
    by_cases h2 : req.Method = "new_buffer"
    · rw [Handle_new_buffer_case env p req raw h2 hp]; exact handleNewBuffer_id env p raw
    · by_cases h3 : req.Method = "update"
      · rw [Handle_update_case env p req raw h3 hp]; exact updateBody_id env p raw
      · rw [(Handle_other env p req h h2 h3).1]

theorem handleAll_id (env : Env) (reqs : List Request) :
    ∀ p : Plugin, (∀ r ∈ reqs, r.Method ≠ "initialize") → (handleAll env p reqs).id = p.id := by
  induction reqs with
  | nil => intro p _; rfl
  | cons r rest ih =>
    intro p h
    show (handleAll env (p.Handle env r).plugin rest).id = p.id
    rw [ih _ (fun r' hr' => h r' (List.mem_cons_of_mem _ hr')),
      Handle_id_of_other_method env p r (h r (List.mem_cons_self _ _))]

/-- C5, as stated, fails: after a first `initialize` has assigned the identifier 1, a second
`initialize` carrying `plugin_id` 2 changes the session's identifier to 2. -/
theorem second_initialize_reassigns_id :
    (NewPlugin.Handle sampleEnv (sampleReq "initialize" (some initJson1))).plugin.id = 1 ∧
      (((NewPlugin.Handle sampleEnv (sampleReq "initialize" (some initJson1))).plugin).Handle
        sampleEnv (sampleReq "initialize" (some initJson2))).plugin.id = 2 := by
  decide

/-- C5, amended: a message whose method is not `initialize` (`new_buffer`, `update`, an
unknown method) never changes the session's plugin identifier, and neither does any
sequence of such messages; an `initialize` message, the first or a later one, sets the
identifier to the `plugin_id` of its payload whenever the payload decodes to an object, and
leaves it as it was when the params are absent, do not decode, or are JSON `null`. -/
theorem Handle_plugin_id (env : Env) (p : Plugin) (req : Request) :
    ((p.Handle env req).plugin.id =
        if req.Method = "initialize" then
          match req.Params with
          | none => p.id
          | some raw =>
            match env.unmarshalInitialization raw with
            | .ok (some ini) => ini.PluginID
            | _ => p.id
        else p.id) ∧
      ∀ reqs : List Request, (∀ r ∈ reqs, r.Method ≠ "initialize") →
        (handleAll env p reqs).id = p.id := by
  refine ⟨?_, fun reqs h => handleAll_id env reqs p h⟩
  by_cases hm : req.Method = "initialize"
  · rw [if_pos hm]
    cases hp : req.Params with
    | none => rw [Handle_absent_params env p req hp]
    | some raw =>
      rw [Handle_initialize_case env p req raw hm hp]
      exact handleInitialize_id env p raw
  · rw [if_neg hm]
    exact Handle_id_of_other_method env p req hm

theorem Handle_plugin_id_witness :
    (∀ r ∈ [sampleReq "new_buffer" (some initJson2), sampleReq "update" (some updateJsonV2),
        sampleReq "close" none], r.Method ≠ "initialize") ∧
      (handleAll sampleEnv (NewPlugin.Handle sampleEnv
          (sampleReq "initialize" (some initJson1))).plugin
        [sampleReq "new_buffer" (some initJson2), sampleReq "update" (some updateJsonV2),
          sampleReq "close" none]).id =
        (NewPlugin.Handle sampleEnv (sampleReq "initialize" (some initJson1))).plugin.id :=
  ⟨by decide,
    (Handle_plugin_id sampleEnv
      (NewPlugin.Handle sampleEnv (sampleReq "initialize" (some initJson1))).plugin
      (sampleReq "close" none)).2 _ (by decide)⟩

/-! ### `Handle`: the `update` case -/

theorem replies_append (xs ys : List Event) : replies (xs ++ ys) = replies xs ++ replies ys := by
  induction xs with
  | nil => rfl
  | cons e rest ih => cases e <;> simp [replies, ih]

/-- The events of `updateApply`: those it was entered with, then possibly the call of the
general hook. -/
theorem updateApply_events (env : Env) (p : Plugin) (update : Option Update) (result : Value)
    (events : List Event) :
    (updateApply env p update result events).events = events ∨
      (updateApply env p update result events).events
        = events ++ [.callHandle (.update update)] := by
  unfold updateApply
  split
  · exact Or.inl rfl
  · split
    · exact Or.inl rfl
    · dsimp only
      split
      · exact Or.inl rfl
      · split
        · exact Or.inl rfl
        · split
          · exact Or.inr rfl
          · exact Or.inr rfl

/-- The body of the `update` case calls hooks only: its events hold no reply. -/
theorem updateBody_replies (env : Env) (p : Plugin) (raw : RawMessage) :
    replies (updateBody env p raw).events = [] ∧
      ∀ e ∈ (updateBody env p raw).events, e.isReplyWithError = false := by
  have key : ∀ (update : Option Update) (result : Value) (events : List Event),
      replies events = [] → (∀ e ∈ events, e.isReplyWithError = false) →
      replies (updateApply env p update result events).events = [] ∧
        ∀ e ∈ (updateApply env p update result events).events, e.isReplyWithError = false := by
    intro update result events h1 h2
    rcases updateApply_events env p update result events with h | h
    · rw [h]; exact ⟨h1, h2⟩
    · rw [h, replies_append, h1]
      refine ⟨rfl, ?_⟩
      intro e he
      rcases List.mem_append.mp he with he | he
      · exact h2 e he
      · rw [List.mem_singleton.mp he]; rfl
  unfold updateBody
  split
  · exact ⟨rfl, by simp⟩
  · split
    · exact key _ _ _ rfl (by simp)
    · split
      · exact ⟨rfl, by simp [Event.isReplyWithError]⟩
      · split
        · exact ⟨rfl, by simp [Event.isReplyWithError]⟩
        · exact key _ _ _ rfl (by simp [Event.isReplyWithError])

/-- Where the variable `result` of the `update` case comes from: it is nil, or a value that
a registered hook returned. -/
theorem updateBody_result (env : Env) (p : Plugin) (raw : RawMessage) :
    (updateBody env p raw).result = .nil ∨
      ∃ f arg flag, (p.handleBeforeFunc = some f ∨ p.handleFunc = some f) ∧
        f arg = .returned (updateBody env p raw).result flag := by
  have key : ∀ (update : Option Update) (result : Value) (events : List Event),
      (result = .nil ∨ ∃ f arg flag, (p.handleBeforeFunc = some f ∨ p.handleFunc = some f) ∧
        f arg = .returned result flag) →
      ((updateApply env p update result events).result = .nil ∨
        ∃ f arg flag, (p.handleBeforeFunc = some f ∨ p.handleFunc = some f) ∧
          f arg = .returned (updateApply env p update result events).result flag) := by
    intro update result events h
    unfold updateApply
    split
    · exact h
    · split
      · exact h
      · dsimp only
        split
        · exact h
        · split
          · exact h
          · rename_i g hg
            split
            · rename_i r flag hr
              exact Or.inr ⟨g, _, flag, Or.inr hg, hr⟩
            · exact h
  unfold updateBody
  split
  · exact Or.inl rfl
  · split
    · exact key _ _ _ (Or.inl rfl)
    · rename_i f hf
      split
      · exact Or.inl rfl
      · rename_i r ov hr
        split
        · exact Or.inr ⟨f, _, ov, Or.inl hf, hr⟩
        · exact key _ _ _ (Or.inr ⟨f, _, ov, Or.inl hf, hr⟩)

/-- The `update` case with params present (malformed, JSON `null` or well-formed), whatever
the hooks and the registry: `Handle` makes exactly one `reply` call, for this request's
identifier, and no error reply; the value replied is never nil, and it is the integer 0
whenever every value returned by a registered hook is nil. -/
theorem Handle_update_replies_once (env : Env) (p : Plugin) (req : Request) (raw : RawMessage)
    (hm : req.Method = "update") (hp : req.Params = some raw) :
    ∃ v, replies (p.Handle env req).events = [(req.ID, v)] ∧ v ≠ .nil ∧
      (∀ e ∈ (p.Handle env req).events, e.isReplyWithError = false) ∧
      ((∀ f arg r flag, (p.handleBeforeFunc = some f ∨ p.handleFunc = some f) →
          f arg = .returned r flag → r = .nil) → v = .int 0) := by
  rw [Handle_update_case env p req raw hm hp]
  obtain ⟨h1, h2⟩ := updateBody_replies env p raw
  refine ⟨orZero (updateBody env p raw).result, ?_, ?_, ?_, ?_⟩
  · simp [handleUpdate, replies_append, h1, replies, orZero]
  · unfold orZero; split
    · simp
    · assumption
  · intro e he
    simp only [handleUpdate, List.mem_append, List.mem_singleton] at he
    rcases he with he | he
    · exact h2 e he
    · rw [he]; rfl
  · intro hnil
    rcases updateBody_result env p raw with h | ⟨f, arg, flag, hf, hr⟩
    · simp [orZero, h]
    · simp [orZero, hnil f arg _ flag hf hr]

theorem Handle_update_replies_once_witness :
    (sampleReq "update" (some "null")).Method = "update" ∧
      (sampleReq "update" (some "null")).Params = some "null" ∧
      ∃ v, replies ((sampleSession none (some sampleGeneral)).Handle sampleEnv
          (sampleReq "update" (some "null"))).events
            = [((sampleReq "update" (some "null")).ID, v)] ∧ v ≠ .nil ∧
        (∀ e ∈ ((sampleSession none (some sampleGeneral)).Handle sampleEnv
          (sampleReq "update" (some "null"))).events, e.isReplyWithError = false) ∧
        ((∀ f arg r flag, ((sampleSession none (some sampleGeneral)).handleBeforeFunc = some f ∨
            (sampleSession none (some sampleGeneral)).handleFunc = some f) →
            f arg = .returned r flag → r = .nil) → v = .int 0) :=
  ⟨rfl, rfl, Handle_update_replies_once sampleEnv (sampleSession none (some sampleGeneral))
    (sampleReq "update" (some "null")) "null" rfl rfl⟩

/-- C1, at the failing input: an `update` request that carries no params member reaches
`req.Params.MarshalJSON()` with a nil pointer; the panic is raised before the deferred reply
is set up, the deferred `recover` catches it, and `Handle` returns having made no call on
the connection: no reply is sent. -/
theorem Handle_update_absent_params_no_reply (env : Env) (p : Plugin) (id : ID) :
    (p.Handle env { Method := "update", Params := none, ID := id }).events = [] ∧
      replies (p.Handle env { Method := "update", Params := none, ID := id }).events = [] ∧
      (p.Handle env { Method := "update", Params := none, ID := id }).panicked = true := by
  rw [Handle_absent_params env p _ rfl]
  exact ⟨rfl, rfl, rfl⟩

/-- C2: for an `update` message whose params decode, if a before-hook is registered and
returns `(r, true)`, then `Handle` leaves the session as it was (the registry and every
cache in it included), calls the before-hook and then makes the one reply and nothing
else, so the general hook is not invoked, and the reply carries `r`, or 0 when `r` is nil. -/
theorem Handle_update_override (env : Env) (p : Plugin) (req : Request) (raw : RawMessage)
    (update : Option Update) (f : HandleFunc) (r : Value)
    (hm : req.Method = "update") (hp : req.Params = some raw)
    (hd : env.unmarshalUpdate raw = .ok update)
    (hf : p.handleBeforeFunc = some f) (hr : f (.update update) = .returned r true) :
    (p.Handle env req).plugin = p ∧
      (p.Handle env req).events
        = [.callBefore (.update update), .reply req.ID (if r = .nil then .int 0 else r)] ∧
      (∀ e ∈ (p.Handle env req).events, e.isCallHandle = false) ∧
      (p.Handle env req).panicked = false := by
  rw [Handle_update_case env p req raw hm hp]
  simp [handleUpdate, updateBody, hd, hf, hr, Event.isCallHandle]

theorem Handle_update_override_witness :
    (sampleReq "update" (some updateJsonV2)).Method = "update" ∧
      (sampleSession (some sampleOverride) (some sampleGeneral)).handleBeforeFunc
        = some sampleOverride ∧
      ((sampleSession (some sampleOverride) (some sampleGeneral)).Handle sampleEnv
          (sampleReq "update" (some updateJsonV2))).plugin
        = sampleSession (some sampleOverride) (some sampleGeneral) ∧
      ((sampleSession (some sampleOverride) (some sampleGeneral)).Handle sampleEnv
          (sampleReq "update" (some updateJsonV2))).events
        = [.callBefore (.update (some { ViewID := "v2", Rev := 1, Delta := none })),
            .reply (sampleReq "update" (some updateJsonV2)).ID
              (if Value.str "stop" = .nil then .int 0 else .str "stop")] ∧
      (∀ e ∈ ((sampleSession (some sampleOverride) (some sampleGeneral)).Handle sampleEnv
          (sampleReq "update" (some updateJsonV2))).events, e.isCallHandle = false) ∧
      ((sampleSession (some sampleOverride) (some sampleGeneral)).Handle sampleEnv
          (sampleReq "update" (some updateJsonV2))).panicked = false :=
  ⟨rfl, rfl,
    Handle_update_override sampleEnv (sampleSession (some sampleOverride) (some sampleGeneral))
      (sampleReq "update" (some updateJsonV2)) updateJsonV2
      (some { ViewID := "v2", Rev := 1, Delta := none }) sampleOverride (.str "stop")
      rfl rfl (by decide) rfl rfl⟩

/-- C3, as stated, fails: with no view registered and no hooks, an `update` addressed to the
view `v2` is answered by the single call `Reply(id, 0)`: no error reply is made, and the
value sent is the integer 0, the default success value; a session in which `v2` is
registered answers the same request with the very same events. -/
theorem Handle_update_unknown_view_replies_zero :
    NewPlugin.Views.lookup "v2" = none ∧
      sampleEnv.unmarshalUpdate updateJsonV2
        = .ok (some { ViewID := "v2", Rev := 1, Delta := none }) ∧
      (NewPlugin.Handle sampleEnv (sampleReq "update" (some updateJsonV2))).events
        = [.reply { Num := 7, Str := "", IsString := false } (.int 0)] ∧
      (∀ e ∈ (NewPlugin.Handle sampleEnv (sampleReq "update" (some updateJsonV2))).events,
        e.isReplyWithError = false) ∧
      ((sampleSession none none).Views.lookup "v2").isSome = true ∧
      ((sampleSession none none).Handle sampleEnv (sampleReq "update" (some updateJsonV2))).events
        = (NewPlugin.Handle sampleEnv (sampleReq "update" (some updateJsonV2))).events := by
  decide

/-- C3, amended: for an `update` message whose view identifier is not a key of the registry
(without before-hook override), `Handle` returns after recovering from the panic of the
missing entry, leaves the session and its registry unchanged, does not invoke the general
hook, and makes exactly one call on the connection, an ordinary `Reply` carrying what the
before-hook returned, or 0 when that is nil, when the hook panicked or when none is
registered; no error reply is made. -/
theorem Handle_update_unknown_view (env : Env) (p : Plugin) (req : Request) (raw : RawMessage)
    (u : Update) (hm : req.Method = "update") (hp : req.Params = some raw)
    (hd : env.unmarshalUpdate raw = .ok (some u))
    (hv : p.Views.lookup u.ViewID = none)
    (hno : ∀ f r, p.handleBeforeFunc = some f → f (.update (some u)) ≠ .returned r true) :
    (p.Handle env req).plugin = p ∧
      (p.Handle env req).panicked = true ∧
      (p.Handle env req).events =
        (match p.handleBeforeFunc with
          | none => []
          | some _ => [.callBefore (.update (some u))]) ++
        [.reply req.ID (orZero (beforeResult p (.update (some u))))] ∧
      ∀ e ∈ (p.Handle env req).events, e.isCallHandle = false ∧ e.isReplyWithError = false := by
  rw [Handle_update_case env p req raw hm hp]
  cases hb : p.handleBeforeFunc with
  | none =>
    simp [handleUpdate, updateBody, updateApply, hd, hb, hv, beforeResult, orZero,
      Event.isCallHandle, Event.isReplyWithError]
  | some f =>
    cases hr : f (.update (some u)) with
    | panicked =>
      simp [handleUpdate, updateBody, hd, hb, hr, beforeResult, orZero,
        Event.isCallHandle, Event.isReplyWithError]
    | returned r ov =>
      cases ov with
      | true => exact absurd hr (hno f r hb)
      | false =>
        simp [handleUpdate, updateBody, updateApply, hd, hb, hr, hv, beforeResult, orZero,
          Event.isCallHandle, Event.isReplyWithError]

theorem Handle_update_unknown_view_witness :
    NewPlugin.Views.lookup "v2" = none ∧
      ((NewPlugin.SetHandleBeforeFunc (some sampleBefore)).Handle sampleEnv
          (sampleReq "update" (some updateJsonV2))).panicked = true ∧
      ((NewPlugin.SetHandleBeforeFunc (some sampleBefore)).Handle sampleEnv
          (sampleReq "update" (some updateJsonV2))).events =
        (match (NewPlugin.SetHandleBeforeFunc (some sampleBefore)).handleBeforeFunc with
          | none => []
          | some _ => [.callBefore (.update (some { ViewID := "v2", Rev := 1, Delta := none }))])
        ++ [.reply (sampleReq "update" (some updateJsonV2)).ID
            (orZero (beforeResult (NewPlugin.SetHandleBeforeFunc (some sampleBefore))
              (.update (some { ViewID := "v2", Rev := 1, Delta := none }))))] :=
  ⟨by decide,
    (Handle_update_unknown_view sampleEnv (NewPlugin.SetHandleBeforeFunc (some sampleBefore))
      (sampleReq "update" (some updateJsonV2)) updateJsonV2
      { ViewID := "v2", Rev := 1, Delta := none } rfl rfl (by decide) (by decide)
      (by
        intro f r hf
        have : f = sampleBefore := by
          simpa [Plugin.SetHandleBeforeFunc] using hf.symm
        rw [this]
        simp [sampleBefore])).2.1,
    (Handle_update_unknown_view sampleEnv (NewPlugin.SetHandleBeforeFunc (some sampleBefore))
      (sampleReq "update" (some updateJsonV2)) updateJsonV2
      { ViewID := "v2", Rev := 1, Delta := none } rfl rfl (by decide) (by decide)
      (by
        intro f r hf
        have : f = sampleBefore := by
          simpa [Plugin.SetHandleBeforeFunc] using hf.symm
        rw [this]
        simp [sampleBefore])).2.2.1⟩

/-- C10: for an `update` message whose params decode to an update addressed to a registered
view, with the before-hook (if any) returning without override and the cache applying the
update without panicking: if a general hook is registered and returns, the reply carries
its first return value (0 when that is nil), whatever the before-hook returned; if no
general hook is registered, the reply carries what the before-hook returned (0 when that
is nil), and 0 when no before-hook is registered either. -/
theorem Handle_update_reply_payload (env : Env) (p : Plugin) (req : Request) (raw : RawMessage)
    (u : Update) (view : View) (hm : req.Method = "update") (hp : req.Params = some raw)
    (hd : env.unmarshalUpdate raw = .ok (some u))
    (hv : p.Views.lookup u.ViewID = some view)
    (hap : (env.ApplyUpdate view.Cache u).panicked = false)
    (hbefore : p.handleBeforeFunc = none ∨
      ∃ f rb, p.handleBeforeFunc = some f ∧ f (.update (some u)) = .returned rb false) :
    (∀ g rg flag, p.handleFunc = some g → g (.update (some u)) = .returned rg flag →
        replies (p.Handle env req).events = [(req.ID, if rg = .nil then .int 0 else rg)]) ∧
      (∀ f rb, p.handleFunc = none → p.handleBeforeFunc = some f →
        f (.update (some u)) = .returned rb false →
        replies (p.Handle env req).events = [(req.ID, if rb = .nil then .int 0 else rb)]) ∧
      (p.handleFunc = none → p.handleBeforeFunc = none →
        replies (p.Handle env req).events = [(req.ID, .int 0)]) := by
  rw [Handle_update_case env p req raw hm hp]
  refine ⟨?_, ?_, ?_⟩
  · intro g rg flag hg hrg
    rcases hbefore with hb | ⟨f, rb, hb, hrb⟩
    · simp [handleUpdate, updateBody, updateApply, hd, hb, hv, hap, hg, hrg, replies]
    · simp [handleUpdate, updateBody, updateApply, hd, hb, hrb, hv, hap, hg, hrg, replies]
  · intro f rb hg hb hrb
    simp [handleUpdate, updateBody, updateApply, hd, hb, hrb, hv, hap, hg, replies]
  · intro hg hb
    simp [handleUpdate, updateBody, updateApply, hd, hb, hv, hap, hg, replies]

theorem Handle_update_reply_payload_witness :
    (sampleSession (some sampleBefore) (some sampleGeneral)).Views.lookup "v2"
        = some (freshView false (sampleBuf "a/b.rs" ["v2"]) "v2") ∧
      (sampleSession (some sampleBefore) (some sampleGeneral)).handleBeforeFunc
        = some sampleBefore ∧
      (sampleSession (some sampleBefore) (some sampleGeneral)).handleFunc
        = some sampleGeneral ∧
      replies ((sampleSession (some sampleBefore) (some sampleGeneral)).Handle sampleEnv
          (sampleReq "update" (some updateJsonV2))).events
        = [((sampleReq "update" (some updateJsonV2)).ID,
            if Value.str "general" = .nil then .int 0 else .str "general")] :=
  ⟨by decide, rfl, rfl,
    (Handle_update_reply_payload sampleEnv (sampleSession (some sampleBefore) (some sampleGeneral))
      (sampleReq "update" (some updateJsonV2)) updateJsonV2
      { ViewID := "v2", Rev := 1, Delta := none }
      (freshView false (sampleBuf "a/b.rs" ["v2"]) "v2") rfl rfl (by decide) (by decide) rfl
      (Or.inr ⟨sampleBefore, .str "before", rfl, rfl⟩)).1
      sampleGeneral (.str "general") false rfl rfl⟩

/-! ### `Edit` -/

/-- C9: for every session, view and edit proposal, `Edit` makes exactly one call on the
connection, a notification with method `edit` whose payload has exactly the three keys
`edit`, `view_id` and `plugin_id`, holding the proposal, the view's identifier and the
session's plugin identifier; the session (identifier, registry, caches, hooks) is left as
it was. -/
theorem Edit_emits_one_notification (p : Plugin) (view : View) (edit : Option Edit) :
    ∃ params : Params,
      (p.Edit (some view) edit).events = [.notify "edit" params] ∧
      notifications (p.Edit (some view) edit).events = [("edit", params)] ∧
      params.keys = {"edit", "view_id", "plugin_id"} ∧
      params.lookup "edit" = some (.edit edit) ∧
      params.lookup "view_id" = some (.str view.ID) ∧
      params.lookup "plugin_id" = some (.int p.id) ∧
      (p.Edit (some view) edit).plugin = p ∧
      (p.Edit (some view) edit).panicked = false := by
  refine ⟨_, rfl, rfl, ?_, ?_, ?_, ?_, rfl, rfl⟩
  · ext k
    simp only [Finmap.mem_keys, Finmap.mem_insert, Finmap.not_mem_empty, or_false,
      Finset.mem_insert, Finset.mem_singleton]
    tauto
  · rw [Finmap.lookup_insert_of_ne _ (by decide), Finmap.lookup_insert_of_ne _ (by decide),
      Finmap.lookup_insert]
  · rw [Finmap.lookup_insert_of_ne _ (by decide), Finmap.lookup_insert]
  · rw [Finmap.lookup_insert]

end plugin
